import Mathlib

/-!
Shallow embedding of `extract_frame_data/lod_matcher.py` (class `LODMatcher`).

Modelling conventions:
* Python's insertion-ordered `dict` is an association list `List (String × β)`
  with distinct keys; `dictGet`, `dictInsert` and `dictPop` mirror `d[k]` /
  `d.get(k)`, `d[k] = v` and `d.pop(k, default)`.
* Meshes are a type parameter `μ`; the external `GeometryMatcher` and
  `VertexGroupsMatcher` services are function parameters collected in `Env`.
* Float-valued similarities and the float configuration fields are abstracted
  to `Int`: the matcher only stores them, passes them on, and order-compares
  similarities, so any linear order is faithful.
* A LOD mesh whose load failed is the explicit sentinel `none`
  (`self.lod_meshes[name] = None` in the source); handing that sentinel to the
  external scorer or solver, whose interfaces take two meshes, raises — this is
  the `attributeError` outcome of `callScorer` / `callSolver`.
* Exceptions (`ValueError`, `StopIteration` from `next(iter({}))`, `KeyError`,
  the sentinel crash) are the `Except MatchError` error outcomes.
* `time.time()` and `print` calls are wall-clock / console diagnostics that do
  not feed back into the matcher state and are erased.
-/

namespace LODMatcher

/-- Python `d.get(k)` on an insertion-ordered dict as association list. -/
def dictGet {β : Type} (d : List (String × β)) (k : String) : Option β :=
  match d with
  | [] => none
  | (k', v) :: rest => if k' = k then some v else dictGet rest k

/-- Python `d[k] = v`: replace the value in place if the key exists, else
append the new pair at the end (insertion order semantics). -/
def dictInsert {β : Type} (d : List (String × β)) (k : String) (v : β) : List (String × β) :=
  match d with
  | [] => [(k, v)]
  | (k', v') :: rest => if k' = k then (k, v) :: rest else (k', v') :: dictInsert rest k v

/-- Python `d.pop(k, None)`: the removed value (if any) and the remaining dict.
A failed pop leaves the dict unchanged. -/
def dictPop {β : Type} (d : List (String × β)) (k : String) : Option β × List (String × β) :=
  match d with
  | [] => (none, [])
  | (k', v) :: rest =>
      if k' = k then (some v, rest)
      else
        let r := dictPop rest k
        (r.1, (k', v) :: r.2)

/-- `load_metadata` line 75: `{hash: name for name, hash in lod_components.items()}`
— invert the LOD component table into the hash → name index (last writer wins
on duplicate hashes, as in a Python dict comprehension). -/
def buildHashToName (comps : List (String × String)) : List (String × String) :=
  comps.foldl (fun acc p => dictInsert acc p.2 p.1) []

/-- The exceptional outcomes of a matching run. -/
inductive MatchError : Type
  /-- `ValueError` from the duplicate-vb0-hash guard (line 153). -/
  | duplicateHash (h : String)
  /-- `StopIteration` from `next(iter(similarities.items()))` on an empty
  similarity table (line 202). -/
  | stopIteration
  /-- `KeyError` from an unchecked dict lookup / pop. -/
  | keyError (h : String)
  /-- The external scorer or solver was handed the `None` absent-mesh sentinel
  in place of a mesh and raised (its interface takes two meshes). -/
  | attributeError (lodName : String)
deriving DecidableEq, Repr

/-- The mutable configuration of the shared `GeometryMatcher` instance: its
`samples_count` / `voxel_size` attributes are unset until the geometric stage
first assigns them (lines 186-187, 195-196). -/
inductive GeoCfg : Type
  | initial
  | params (samplesCount : Int) (voxelSize : Int)
deriving DecidableEq, Repr

/-- The numeric matcher configuration fields of the `LODMatcher` dataclass that
the core algorithm reads (the scorer-internal `method` / `sensivity` and the
solver-internal `vg_matcher_candidates_count` are closed over by the external
services in `Env`). Fields in dataclass order. -/
structure Config : Type where
  geoMatcherVoxelSize : Int
  geoMatcherSampleSize : Int
  geoMatcherPrefilterVoxelSize : Int
  geoMatcherPrefilterSampleSize : Int
  geoMatcherPrefilterCandidatesCount : Nat
deriving DecidableEq, Repr

/-- A value stored in the dynamically-typed `self.matched` dict: the hash pass
(line 122) stores a bare LOD name, the geometric pass (line 211) stores the
`(best_lod_name, best_lod_hash, best_similarity)` triple. -/
inductive MatchVal : Type
  | hashName (lodName : String)
  | geoRec (lodName : String) (lodHash : String) (similarity : Int)
deriving DecidableEq, Repr

/-- The LOD content hash a `matched` entry references: the geometric triple
carries it explicitly; a hash-pass entry matched on hash equality, so its LOD
hash is the full-component hash it is keyed by. -/
def MVLodHash (fullHash : String) : MatchVal → String
  | .hashName _ => fullHash
  | .geoRec _ lodHash _ => lodHash

/-- The mutable matcher state threaded through the passes:
`self.lod_hash_to_name` (the candidate pool), the shared `GeometryMatcher`
configuration, `self.matched` and `self.vg_maps`. -/
structure MatchState : Type where
  lodHashToName : List (String × String)
  cfg : GeoCfg
  matched : List (String × MatchVal)
  vgMaps : List (String × String × List (Int × Int))
deriving DecidableEq, Repr

/-- The external collaborators and the loaded mesh tables: the similarity
scorer (`GeometryMatcher.calculate_similarity` at its current configuration),
the correspondence solver (`VertexGroupsMatcher.match_vertex_groups`), the
full-component meshes (a full-mesh load failure is fatal and propagates before
matching starts, so the table is total), and the LOD meshes with the `none`
sentinel for failed loads. -/
structure Env (μ : Type) : Type where
  score : GeoCfg → μ → μ → Int
  vgSolver : μ → μ → List (Int × Int)
  fullMeshes : String → μ
  lodMeshes : String → Option μ

/-- Invoke the scorer on `self.lod_meshes[lod_name]`: the source passes the
stored value directly, so the `None` sentinel reaches the external scorer and
raises (the scorer's interface takes two meshes). -/
def callScorer {μ : Type} (score : GeoCfg → μ → μ → Int) (cfg : GeoCfg) (fullMesh : μ)
    (lodName : String) (lodMeshes : String → Option μ) : Except MatchError Int :=
  match lodMeshes lodName with
  | none => .error (.attributeError lodName)
  | some lm => .ok (score cfg fullMesh lm)

/-- Invoke the solver on `self.lod_meshes[best_lod_name]` (line 217-220), with
the same `None`-sentinel behavior as `callScorer`. -/
def callSolver {μ : Type} (vgSolver : μ → μ → List (Int × Int)) (fullMesh : μ)
    (lodName : String) (lodMeshes : String → Option μ) : Except MatchError (List (Int × Int)) :=
  match lodMeshes lodName with
  | none => .error (.attributeError lodName)
  | some lm => .ok (vgSolver fullMesh lm)

/-- The loop of `calculate_similarities` (lines 136-142): score the full mesh
against every candidate in the given hash → name table, building the
`similarities` dict in iteration order. The commented-out `None` skip
(lines 137-138) is absent, exactly as in the source. -/
def calculateSimilaritiesRaw {μ : Type} (score : GeoCfg → μ → μ → Int) (cfg : GeoCfg)
    (fullMesh : μ) (lodMeshes : String → Option μ) :
    List (String × String) → Except MatchError (List (String × Int))
  | [] => .ok []
  | (lodHash, lodName) :: rest =>
      match callScorer score cfg fullMesh lodName lodMeshes with
      | .error e => .error e
      | .ok s =>
          match calculateSimilaritiesRaw score cfg fullMesh lodMeshes rest with
          | .error e => .error e
          | .ok sims => .ok ((lodHash, s) :: sims)

/-- Insert one entry into a descending-by-similarity list, after all entries
scoring at least as high (so equal scores keep their original order). -/
def insertDesc (p : String × Int) : List (String × Int) → List (String × Int)
  | [] => [p]
  | q :: qs => if q.2 < p.2 then p :: q :: qs else q :: insertDesc p qs

/-- `dict(sorted(similarities.items(), key=itemgetter(1), reverse=True))`:
a stable descending sort by similarity (lines 144-146). -/
def sortSimilaritiesDesc (l : List (String × Int)) : List (String × Int) :=
  l.foldl (fun acc p => insertDesc p acc) []

/-- `calculate_similarities` (lines 132-148): raw scores then stable
descending sort. -/
def calculateSimilarities {μ : Type} (score : GeoCfg → μ → μ → Int) (cfg : GeoCfg)
    (fullMesh : μ) (lodMeshes : String → Option μ) (pool : List (String × String)) :
    Except MatchError (List (String × Int)) :=
  match calculateSimilaritiesRaw score cfg fullMesh lodMeshes pool with
  | .error e => .error e
  | .ok sims => .ok (sortSimilaritiesDesc sims)

/-- `list(prefiltered_similarities.keys())[:min(count, len(...))]` (line 191):
the coarse-stage candidate hashes kept for the fine stage. -/
def prefilteredHashes (sims : List (String × Int)) (count : Nat) : List String :=
  (sims.map Prod.fst).take (min count sims.length)

/-- `{hash: self.lod_hash_to_name[hash] for hash in prefiltered_lod_hashes}`
(line 193): restrict the pool to the prefiltered hashes; the unchecked
`[...]` lookup raises `KeyError` on a missing key. -/
def selectCandidates (pool : List (String × String)) :
    List String → Except MatchError (List (String × String))
  | [] => .ok []
  | h :: rest =>
      match dictGet pool h with
      | none => .error (.keyError h)
      | some name =>
          match selectCandidates pool rest with
          | .error e => .error e
          | .ok cands => .ok ((h, name) :: cands)

/-- Lines 211-235 of `match_by_geometry`: record the match triple in
`self.matched`, solve the vertex-group correspondence, and store a
`vg_maps` entry iff at least one index was remapped (lines 226-229); the
candidate pool and scorer configuration take their post-claim values. -/
def recordMatch {μ : Type} (env : Env μ) (fullMesh : μ) (fullHash bestLodName bestLodHash : String)
    (bestSimilarity : Int) (pool' : List (String × String)) (cfg' : GeoCfg)
    (st : MatchState) : Except MatchError MatchState :=
  let matched' := dictInsert st.matched fullHash (.geoRec bestLodName bestLodHash bestSimilarity)
  match callSolver env.vgSolver fullMesh bestLodName env.lodMeshes with
  | .error e => .error e
  | .ok vgMap =>
      let remapped := vgMap.countP (fun p => p.1 != p.2)
      let vgMaps' := if remapped > 0 then dictInsert st.vgMaps fullHash (bestLodHash, vgMap) else st.vgMaps
      .ok ⟨pool', cfg', matched', vgMaps'⟩

/-- One iteration of the `match_by_geometry` loop (lines 150-235) for the full
component `(fullName, fullHash)`: duplicate-hash guard, in-pass hash shortcut
(lines 159-178, configuration untouched), else the coarse prefilter and fine
match (lines 180-209, configuration left at the fine parameters), then the
common recording tail. -/
def matchComponentGeo {μ : Type} (env : Env μ) (c : Config) (fullName fullHash : String)
    (st : MatchState) : Except MatchError MatchState :=
  if (dictGet st.matched fullHash).isSome then
    .error (.duplicateHash fullHash)
  else
    let fullMesh := env.fullMeshes fullName
    match dictPop st.lodHashToName fullHash with
    | (some bestLodName, pool') =>
        match callScorer env.score st.cfg fullMesh bestLodName env.lodMeshes with
        | .error e => .error e
        | .ok similarity =>
            recordMatch env fullMesh fullHash bestLodName fullHash similarity pool' st.cfg st
    | (none, _) =>
        let cfgPre := GeoCfg.params c.geoMatcherPrefilterSampleSize c.geoMatcherPrefilterVoxelSize
        match calculateSimilarities env.score cfgPre fullMesh env.lodMeshes st.lodHashToName with
        | .error e => .error e
        | .ok prefilteredSimilarities =>
            match selectCandidates st.lodHashToName
                (prefilteredHashes prefilteredSimilarities c.geoMatcherPrefilterCandidatesCount) with
            | .error e => .error e
            | .ok lodHashToNames =>
                let cfgFine := GeoCfg.params c.geoMatcherSampleSize c.geoMatcherVoxelSize
                match calculateSimilarities env.score cfgFine fullMesh env.lodMeshes lodHashToNames with
                | .error e => .error e
                | .ok similarities =>
                    match similarities with
                    | [] => .error .stopIteration
                    | (bestLodHash, bestSimilarity) :: _ =>
                        match dictPop st.lodHashToName bestLodHash with
                        | (none, _) => .error (.keyError bestLodHash)
                        | (some bestLodName, pool') =>
                            recordMatch env fullMesh fullHash bestLodName bestLodHash
                              bestSimilarity pool' cfgFine st

/-- `match_by_geometry` (lines 130-235): the loop over `self.full_components`
in insertion order. -/
def matchByGeometry {μ : Type} (env : Env μ) (c : Config) :
    List (String × String) → MatchState → Except MatchError MatchState
  | [], st => .ok st
  | (fullName, fullHash) :: rest, st =>
      match matchComponentGeo env c fullName fullHash st with
      | .error e => .error e
      | .ok st' => matchByGeometry env c rest st'

/-- `match_by_hash` (lines 108-128): pop each full hash from the pool; a hit
with the `None`-mesh sentinel is skipped (the hash stays popped), otherwise a
diagnostic similarity is computed at the current configuration and the bare
LOD name is stored in `self.matched`. Defined as in the source; the call to it
in `run` (line 247) is commented out. -/
def matchByHash {μ : Type} (env : Env μ) :
    List (String × String) → MatchState → MatchState
  | [], st => st
  | (fullName, fullHash) :: rest, st =>
      match dictPop st.lodHashToName fullHash with
      | (none, _) => matchByHash env rest st
      | (some lodName, pool') =>
          match env.lodMeshes lodName with
          | none => matchByHash env rest ⟨pool', st.cfg, st.matched, st.vgMaps⟩
          | some lm =>
              let _similarity := env.score st.cfg (env.fullMeshes fullName) lm
              matchByHash env rest
                ⟨pool', st.cfg, dictInsert st.matched fullHash (.hashName lodName), st.vgMaps⟩

/-- The state after `load_metadata` / `load_meshes`: freshly inverted pool,
unset scorer configuration, empty `matched` and `vg_maps` tables (the mesh
tables themselves live in `Env`). -/
def initState (lodComponents : List (String × String)) : MatchState :=
  ⟨buildHashToName lodComponents, .initial, [], []⟩

/-- `run` (lines 241-251): load, then `match_by_geometry` only — the
`match_by_hash()` call at line 247 is commented out in the source. The final
state carries `self.matched` (the return value) and `self.vg_maps`. -/
def run {μ : Type} (env : Env μ) (c : Config) (fullComponents lodComponents : List (String × String)) :
    Except MatchError MatchState :=
  matchByGeometry env c fullComponents (initState lodComponents)

/-- Modelled from the spec: the §4.4 orchestration in which the §4.2
hash-based resolution pass runs over all full components before the §4.3
geometric pass begins, each pass as the source defines it. Compared against
`run`, whose `match_by_hash()` call is commented out. -/
def specOrderedRun {μ : Type} (env : Env μ) (c : Config)
    (fullComponents lodComponents : List (String × String)) : Except MatchError MatchState :=
  matchByGeometry env c fullComponents (matchByHash env fullComponents (initState lodComponents))

/-- A concrete environment over `μ := Nat`: constant scorer, identity-free
solver, every mesh loaded. -/
def envW : Env Nat :=
  ⟨fun _ _ _ => 0, fun _ _ => [], fun _ => 0, fun _ => some 0⟩

/-- A concrete environment in which the LOD component `B`'s mesh failed to
load and is the `none` sentinel. -/
def envB : Env Nat :=
  ⟨fun _ _ _ => 0, fun _ _ => [], fun _ => 0, fun nm => if nm = "B" then none else some 0⟩

/-- A concrete matcher configuration. -/
def cW : Config :=
  ⟨10, 20, 11, 21, 5⟩

/-- Decidable equality of run results, so concrete runs can be compared by
`decide`. -/
instance {ε α : Type} [DecidableEq ε] [DecidableEq α] : DecidableEq (Except ε α) :=
  fun a b =>
    match a, b with
    | .ok x, .ok y =>
        if h : x = y then .isTrue (by rw [h]) else .isFalse (fun hc => h (Except.ok.inj hc))
    | .error x, .error y =>
        if h : x = y then .isTrue (by rw [h]) else .isFalse (fun hc => h (Except.error.inj hc))
    | .ok _, .error _ => .isFalse (fun hc => Except.noConfusion hc)
    | .error _, .ok _ => .isFalse (fun hc => Except.noConfusion hc)

/-- The claim invariant of the candidate pool: pool keys are distinct, every
`matched` entry references a LOD hash no longer in the pool, and entries under
distinct full hashes reference distinct LOD hashes. -/
def StInv (st : MatchState) : Prop :=
  (st.lodHashToName.map Prod.fst).Nodup ∧
  (∀ h v, (h, v) ∈ st.matched → MVLodHash h v ∉ st.lodHashToName.map Prod.fst) ∧
  (∀ h₁ v₁ h₂ v₂, (h₁, v₁) ∈ st.matched → (h₂, v₂) ∈ st.matched → h₁ ≠ h₂ →
      MVLodHash h₁ v₁ ≠ MVLodHash h₂ v₂)

/-! Association-list dictionary lemmas. -/

lemma dictGet_insert_self {β : Type} (d : List (String × β)) (k : String) (v : β) :
    dictGet (dictInsert d k v) k = some v := by
  induction d with
  | nil => simp [dictGet, dictInsert]
  | cons p rest ih =>
      by_cases h : p.1 = k
      · simp [dictGet, dictInsert, h]
      · simp [dictGet, dictInsert, h, ih]

lemma dictGet_insert_ne {β : Type} (d : List (String × β)) (k k' : String) (v : β)
    (hne : k' ≠ k) : dictGet (dictInsert d k v) k' = dictGet d k' := by
  have hkk : ¬(k = k') := fun h => hne h.symm
  induction d with
  | nil => simp [dictGet, dictInsert, hkk]
  | cons p rest ih =>
      by_cases h : p.1 = k
      · simp [dictGet, dictInsert, h, hkk]
      · simp [dictGet, dictInsert, h, ih]

lemma mem_of_mem_dictInsert {β : Type} {d : List (String × β)} {k : String} {v : β}
    {p : String × β} : p ∈ dictInsert d k v → p = (k, v) ∨ p ∈ d := by
  induction d with
  | nil =>
      intro hp
      simp [dictInsert] at hp
      exact Or.inl hp
  | cons q rest ih =>
      intro hp
      by_cases h : q.1 = k
      · simp only [dictInsert, if_pos h, List.mem_cons] at hp
        rcases hp with hp | hp
        · exact Or.inl hp
        · exact Or.inr (List.mem_cons_of_mem _ hp)
      · simp only [dictInsert, if_neg h, List.mem_cons] at hp
        rcases hp with hp | hp
        · exact Or.inr (List.mem_cons.mpr (Or.inl hp))
        · rcases ih hp with h' | h'
          · exact Or.inl h'
          · exact Or.inr (List.mem_cons_of_mem _ h')

lemma mem_keys_dictInsert {β : Type} (d : List (String × β)) (k a : String) (v : β) :
    a ∈ (dictInsert d k v).map Prod.fst ↔ a = k ∨ a ∈ d.map Prod.fst := by
  induction d with
  | nil => simp [dictInsert]
  | cons q rest ih =>
      by_cases h : q.1 = k
      · simp only [dictInsert, if_pos h, List.map_cons, List.mem_cons]
        constructor
        · rintro (hh | hh)
          · exact Or.inl hh
          · exact Or.inr (Or.inr hh)
        · rintro (hh | hh | hh)
          · exact Or.inl hh
          · exact Or.inl (h ▸ hh)
          · exact Or.inr hh
      · simp only [dictInsert, if_neg h, List.map_cons, List.mem_cons, ih]
        tauto

lemma nodup_keys_dictInsert {β : Type} (d : List (String × β)) (k : String) (v : β)
    (hd : (d.map Prod.fst).Nodup) : ((dictInsert d k v).map Prod.fst).Nodup := by
  induction d with
  | nil => simp [dictInsert]
  | cons q rest ih =>
      simp only [List.map_cons, List.nodup_cons] at hd
      by_cases h : q.1 = k
      · simp only [dictInsert, if_pos h, List.map_cons, List.nodup_cons]
        exact ⟨h ▸ hd.1, hd.2⟩
      · simp only [dictInsert, if_neg h, List.map_cons, List.nodup_cons]
        refine ⟨?_, ih hd.2⟩
        intro hmem
        rcases (mem_keys_dictInsert rest k q.1 v).mp hmem with hh | hh
        · exact h hh
        · exact hd.1 hh

lemma dictGet_some_mem {β : Type} {d : List (String × β)} {k : String} {v : β} :
    dictGet d k = some v → (k, v) ∈ d := by
  induction d with
  | nil => intro h; simp [dictGet] at h
  | cons q rest ih =>
      intro h
      by_cases hq : q.1 = k
      · simp only [dictGet, if_pos hq, Option.some.injEq] at h
        exact List.mem_cons.mpr (Or.inl (by cases q; simp_all))
      · simp only [dictGet, if_neg hq] at h
        exact List.mem_cons_of_mem _ (ih h)

lemma not_mem_of_dictGet_none {β : Type} {d : List (String × β)} {k : String}
    (h : dictGet d k = none) (v : β) : (k, v) ∉ d := by
  induction d with
  | nil => simp
  | cons q rest ih =>
      by_cases hq : q.1 = k
      · simp [dictGet, hq] at h
      · simp only [dictGet, if_neg hq] at h
        intro hmem
        rcases List.mem_cons.mp hmem with hmem | hmem
        · exact hq (by simp [← hmem])
        · exact ih h hmem

lemma dictPop_fst {β : Type} (d : List (String × β)) (k : String) :
    (dictPop d k).1 = dictGet d k := by
  induction d with
  | nil => simp [dictPop, dictGet]
  | cons q rest ih =>
      by_cases hq : q.1 = k
      · simp [dictPop, dictGet, hq]
      · simp [dictPop, dictGet, hq, ih]

lemma dictPop_none {β : Type} (d : List (String × β)) (k : String)
    (h : dictGet d k = none) : dictPop d k = (none, d) := by
  induction d with
  | nil => simp [dictPop]
  | cons q rest ih =>
      by_cases hq : q.1 = k
      · simp [dictGet, hq] at h
      · simp only [dictGet, if_neg hq] at h
        simp [dictPop, hq, ih h]

lemma dictPop_keys_subset {β : Type} (d : List (String × β)) (k a : String)
    (ha : a ∈ (dictPop d k).2.map Prod.fst) : a ∈ d.map Prod.fst := by
  induction d with
  | nil => simp [dictPop] at ha
  | cons q rest ih =>
      by_cases hq : q.1 = k
      · simp only [dictPop, if_pos hq] at ha
        simp [ha]
      · simp only [dictPop, if_neg hq, List.map_cons, List.mem_cons] at ha
        rcases ha with ha | ha
        · simp [ha]
        · simp [ih ha]

lemma dictPop_nodup {β : Type} (d : List (String × β)) (k : String)
    (hd : (d.map Prod.fst).Nodup) : ((dictPop d k).2.map Prod.fst).Nodup := by
  induction d with
  | nil => simp [dictPop]
  | cons q rest ih =>
      simp only [List.map_cons, List.nodup_cons] at hd
      by_cases hq : q.1 = k
      · simpa [dictPop, hq] using hd.2
      · simp only [dictPop, if_neg hq, List.map_cons, List.nodup_cons]
        exact ⟨fun hmem => hd.1 (dictPop_keys_subset rest k q.1 hmem), ih hd.2⟩

lemma not_mem_keys_dictPop {β : Type} (d : List (String × β)) (k : String)
    (hd : (d.map Prod.fst).Nodup) {v : β} (h : (dictPop d k).1 = some v) :
    k ∉ (dictPop d k).2.map Prod.fst := by
  induction d with
  | nil => simp [dictPop] at h
  | cons q rest ih =>
      simp only [List.map_cons, List.nodup_cons] at hd
      by_cases hq : q.1 = k
      · simp only [dictPop, if_pos hq]
        exact hq ▸ hd.1
      · simp only [dictPop, if_neg hq] at h ⊢
        simp only [List.map_cons, List.mem_cons]
        push_neg
        exact ⟨fun hk => hq hk.symm, ih hd.2 h⟩

lemma mem_keys_of_dictPop_some {β : Type} (d : List (String × β)) (k : String) {v : β}
    (h : (dictPop d k).1 = some v) : k ∈ d.map Prod.fst := by
  rw [dictPop_fst] at h
  exact List.mem_map.mpr ⟨(k, v), dictGet_some_mem h, rfl⟩

lemma buildHashToName_nodup (comps : List (String × String)) :
    ((buildHashToName comps).map Prod.fst).Nodup := by
  have aux : ∀ (l acc : List (String × String)), (acc.map Prod.fst).Nodup →
      ((l.foldl (fun a p => dictInsert a p.2 p.1) acc).map Prod.fst).Nodup := by
    intro l
    induction l with
    | nil => intro acc h; simpa using h
    | cons p rest ih =>
        intro acc h
        exact ih _ (nodup_keys_dictInsert acc p.2 p.1 h)
  exact aux comps [] (by simp)

/-! Similarity-table lemmas: the sorted similarity dict is a rearrangement of
the raw one, and the raw one is keyed exactly by the candidate pool. -/

lemma mem_insertDesc (p q : String × Int) (l : List (String × Int)) :
    q ∈ insertDesc p l ↔ q = p ∨ q ∈ l := by
  induction l with
  | nil => simp [insertDesc]
  | cons r rest ih =>
      by_cases h : r.2 < p.2
      · simp [insertDesc, h]
      · simp [insertDesc, h, ih]
        tauto

lemma mem_sortSimilaritiesDesc (q : String × Int) (l : List (String × Int)) :
    q ∈ sortSimilaritiesDesc l ↔ q ∈ l := by
  have aux : ∀ (l acc : List (String × Int)),
      (q ∈ l.foldl (fun a p => insertDesc p a) acc ↔ q ∈ acc ∨ q ∈ l) := by
    intro l
    induction l with
    | nil => intro acc; simp
    | cons p rest ih =>
        intro acc
        rw [List.foldl_cons, ih, mem_insertDesc]
        simp
        tauto
  rw [sortSimilaritiesDesc, aux]
  simp

lemma calculateSimilaritiesRaw_keys {μ : Type} (score : GeoCfg → μ → μ → Int) (cfg : GeoCfg)
    (fm : μ) (lms : String → Option μ) :
    ∀ (pool : List (String × String)) (sims : List (String × Int)),
      calculateSimilaritiesRaw score cfg fm lms pool = .ok sims →
      sims.map Prod.fst = pool.map Prod.fst := by
  intro pool
  induction pool with
  | nil =>
      intro sims h
      simp only [calculateSimilaritiesRaw, Except.ok.injEq] at h
      simp [← h]
  | cons q rest ih =>
      intro sims h
      obtain ⟨lodHash, lodName⟩ := q
      simp only [calculateSimilaritiesRaw] at h
      cases hc : callScorer score cfg fm lodName lms with
      | error e => rw [hc] at h; simp at h
      | ok s =>
          rw [hc] at h
          cases hr : calculateSimilaritiesRaw score cfg fm lms rest with
          | error e => rw [hr] at h; simp at h
          | ok sims' =>
              rw [hr] at h
              simp only [Except.ok.injEq] at h
              rw [← h]
              simp [ih sims' hr]

lemma calculateSimilarities_key_mem {μ : Type} {score : GeoCfg → μ → μ → Int} {cfg : GeoCfg}
    {fm : μ} {lms : String → Option μ} {pool : List (String × String)}
    {sims : List (String × Int)} {a : String} {b : Int}
    (h : calculateSimilarities score cfg fm lms pool = .ok sims) (hab : (a, b) ∈ sims) :
    a ∈ pool.map Prod.fst := by
  simp only [calculateSimilarities] at h
  cases hr : calculateSimilaritiesRaw score cfg fm lms pool with
  | error e => rw [hr] at h; simp at h
  | ok raw =>
      rw [hr] at h
      simp only [Except.ok.injEq] at h
      rw [← h] at hab
      rw [mem_sortSimilaritiesDesc] at hab
      rw [← calculateSimilaritiesRaw_keys score cfg fm lms pool raw hr]
      exact List.mem_map.mpr ⟨(a, b), hab, rfl⟩

lemma selectCandidates_keys {pool : List (String × String)} :
    ∀ {hs : List String} {cands : List (String × String)},
      selectCandidates pool hs = .ok cands → cands.map Prod.fst = hs := by
  intro hs
  induction hs with
  | nil =>
      intro cands h
      simp only [selectCandidates, Except.ok.injEq] at h
      simp [← h]
  | cons a rest ih =>
      intro cands h
      simp only [selectCandidates] at h
      cases hg : dictGet pool a with
      | none => rw [hg] at h; simp at h
      | some name =>
          rw [hg] at h
          cases hr : selectCandidates pool rest with
          | error e => rw [hr] at h; simp at h
          | ok cands' =>
              rw [hr] at h
              simp only [Except.ok.injEq] at h
              rw [← h]
              simp [ih hr]

/-! Inversion of one geometric-pass iteration: a successful step found the
full hash unclaimed, popped some LOD hash from the candidate pool, and stored
the corresponding triple under the full hash. -/

lemma recordMatch_ok {μ : Type} {env : Env μ} {fm : μ} {fullHash n lh : String} {s : Int}
    {pool' : List (String × String)} {cfg' : GeoCfg} {st st' : MatchState}
    (h : recordMatch env fm fullHash n lh s pool' cfg' st = .ok st') :
    ∃ lm, env.lodMeshes n = some lm ∧
      st' = ⟨pool', cfg', dictInsert st.matched fullHash (.geoRec n lh s),
        if 0 < (env.vgSolver fm lm).countP (fun p => p.1 != p.2)
        then dictInsert st.vgMaps fullHash (lh, env.vgSolver fm lm)
        else st.vgMaps⟩ := by
  simp only [recordMatch, callSolver] at h
  cases hm : env.lodMeshes n with
  | none => rw [hm] at h; simp at h
  | some lm =>
      rw [hm] at h
      simp only [Except.ok.injEq] at h
      exact ⟨lm, rfl, h.symm⟩

lemma matchComponentGeo_ok_strong {μ : Type} {env : Env μ} {c : Config}
    {fullName fullHash : String} {st st' : MatchState}
    (h : matchComponentGeo env c fullName fullHash st = .ok st') :
    dictGet st.matched fullHash = none ∧
    ∃ n lh s lm pool' cfg', dictPop st.lodHashToName lh = (some n, pool') ∧
      env.lodMeshes n = some lm ∧
      st' = ⟨pool', cfg', dictInsert st.matched fullHash (.geoRec n lh s),
        if 0 < (env.vgSolver (env.fullMeshes fullName) lm).countP (fun p => p.1 != p.2)
        then dictInsert st.vgMaps fullHash (lh, env.vgSolver (env.fullMeshes fullName) lm)
        else st.vgMaps⟩ := by
  simp only [matchComponentGeo] at h
  by_cases hg : (dictGet st.matched fullHash).isSome
  · rw [if_pos hg] at h
    simp at h
  · rw [if_neg hg] at h
    refine ⟨Option.not_isSome_iff_eq_none.mp hg, ?_⟩
    cases hp : dictPop st.lodHashToName fullHash with
    | mk o pool2 =>
        rw [hp] at h
        cases o with
        | some bestLodName =>
            dsimp only at h
            cases hc : callScorer env.score st.cfg (env.fullMeshes fullName) bestLodName
                env.lodMeshes with
            | error e => rw [hc] at h; simp at h
            | ok sim =>
                rw [hc] at h
                dsimp only at h
                obtain ⟨lm, hlm, hst⟩ := recordMatch_ok h
                exact ⟨bestLodName, fullHash, sim, lm, pool2, st.cfg, hp, hlm, hst⟩
        | none =>
            dsimp only at h
            cases hcs : calculateSimilarities env.score
                (GeoCfg.params c.geoMatcherPrefilterSampleSize c.geoMatcherPrefilterVoxelSize)
                (env.fullMeshes fullName) env.lodMeshes st.lodHashToName with
            | error e => rw [hcs] at h; simp at h
            | ok pre =>
                rw [hcs] at h
                dsimp only at h
                cases hsel : selectCandidates st.lodHashToName
                    (prefilteredHashes pre c.geoMatcherPrefilterCandidatesCount) with
                | error e => rw [hsel] at h; simp at h
                | ok cands =>
                    rw [hsel] at h
                    dsimp only at h
                    cases hfs : calculateSimilarities env.score
                        (GeoCfg.params c.geoMatcherSampleSize c.geoMatcherVoxelSize)
                        (env.fullMeshes fullName) env.lodMeshes cands with
                    | error e => rw [hfs] at h; simp at h
                    | ok sims =>
                        rw [hfs] at h
                        dsimp only at h
                        cases sims with
                        | nil => simp at h
                        | cons hd tl =>
                            obtain ⟨bestLodHash, bestSim⟩ := hd
                            dsimp only at h
                            cases hp2 : dictPop st.lodHashToName bestLodHash with
                            | mk o2 pool3 =>
                                rw [hp2] at h
                                cases o2 with
                                | none => dsimp only at h; simp at h
                                | some bestLodName =>
                                    dsimp only at h
                                    obtain ⟨lm, hlm, hst⟩ := recordMatch_ok h
                                    exact ⟨bestLodName, bestLodHash, bestSim, lm, pool3,
                                      GeoCfg.params c.geoMatcherSampleSize c.geoMatcherVoxelSize,
                                      hp2, hlm, hst⟩

lemma matchComponentGeo_ok {μ : Type} {env : Env μ} {c : Config} {fullName fullHash : String}
    {st st' : MatchState} (h : matchComponentGeo env c fullName fullHash st = .ok st') :
    dictGet st.matched fullHash = none ∧
    ∃ n lh s, (dictPop st.lodHashToName lh).1 = some n ∧
      st'.lodHashToName = (dictPop st.lodHashToName lh).2 ∧
      st'.matched = dictInsert st.matched fullHash (.geoRec n lh s) := by
  obtain ⟨hfresh, n, lh, s, lm, pool', cfg', hpop, hlm, hst⟩ := matchComponentGeo_ok_strong h
  refine ⟨hfresh, n, lh, s, ?_, ?_, ?_⟩
  · rw [hpop]
  · rw [hst, hpop]
  · rw [hst]

/-! The pool-claim invariant is established by loading and preserved by every
geometric-pass iteration. -/

lemma matchComponentGeo_preserves_inv {μ : Type} {env : Env μ} {c : Config}
    {fn fh : String} {st st' : MatchState}
    (hok : matchComponentGeo env c fn fh st = .ok st') (hinv : StInv st) : StInv st' := by
  obtain ⟨hfresh, bn, lh, s, hpop, hpool, hmatched⟩ := matchComponentGeo_ok hok
  obtain ⟨hnodup, hdisj, huniq⟩ := hinv
  have hlhmem : lh ∈ st.lodHashToName.map Prod.fst := mem_keys_of_dictPop_some _ _ hpop
  have hlhnot : lh ∉ (dictPop st.lodHashToName lh).2.map Prod.fst :=
    not_mem_keys_dictPop _ _ hnodup hpop
  refine ⟨?_, ?_, ?_⟩
  · rw [hpool]
    exact dictPop_nodup _ _ hnodup
  · intro h v hm
    rw [hmatched] at hm
    rcases mem_of_mem_dictInsert hm with he | hm'
    · rcases Prod.mk.inj he with ⟨rfl, rfl⟩
      rw [hpool]
      simpa [MVLodHash] using hlhnot
    · rw [hpool]
      intro hc
      exact hdisj _ _ hm' (dictPop_keys_subset _ _ _ hc)
  · intro h₁ v₁ h₂ v₂ hm₁ hm₂ hne
    rw [hmatched] at hm₁ hm₂
    rcases mem_of_mem_dictInsert hm₁ with he₁ | hm₁' <;>
      rcases mem_of_mem_dictInsert hm₂ with he₂ | hm₂'
    · rcases Prod.mk.inj he₁ with ⟨rfl, rfl⟩
      rcases Prod.mk.inj he₂ with ⟨h2, rfl⟩
      exact absurd h2.symm hne
    · rcases Prod.mk.inj he₁ with ⟨rfl, rfl⟩
      intro heq
      have hl : lh = MVLodHash h₂ v₂ := heq
      exact hdisj _ _ hm₂' (hl ▸ hlhmem)
    · rcases Prod.mk.inj he₂ with ⟨rfl, rfl⟩
      intro heq
      have hl : MVLodHash h₁ v₁ = lh := heq
      exact hdisj _ _ hm₁' (hl.symm ▸ hlhmem)
    · exact huniq _ _ _ _ hm₁' hm₂' hne

lemma matchByGeometry_preserves_inv {μ : Type} {env : Env μ} {c : Config} :
    ∀ {comps : List (String × String)} {st st' : MatchState},
      matchByGeometry env c comps st = .ok st' → StInv st → StInv st' := by
  intro comps
  induction comps with
  | nil =>
      intro st st' h hinv
      simp only [matchByGeometry, Except.ok.injEq] at h
      exact h ▸ hinv
  | cons q rest ih =>
      intro st st' h hinv
      obtain ⟨fn, fh⟩ := q
      simp only [matchByGeometry] at h
      cases hs : matchComponentGeo env c fn fh st with
      | error e => rw [hs] at h; simp at h
      | ok st1 =>
          rw [hs] at h
          exact ih h (matchComponentGeo_preserves_inv hs hinv)

lemma initState_inv (lodComponents : List (String × String)) : StInv (initState lodComponents) := by
  refine ⟨buildHashToName_nodup lodComponents, ?_, ?_⟩
  · intro h v hm
    simp [initState] at hm
  · intro h₁ v₁ h₂ v₂ hm₁
    simp [initState] at hm₁

/-! Matched entries persist across the rest of the pass: a later iteration for
the same full hash errors instead of overwriting. -/

lemma matchByGeometry_preserves_entry {μ : Type} {env : Env μ} {c : Config} :
    ∀ {comps : List (String × String)} {st st' : MatchState} {h : String} {v : MatchVal},
      matchByGeometry env c comps st = .ok st' → dictGet st.matched h = some v →
      dictGet st'.matched h = some v := by
  intro comps
  induction comps with
  | nil =>
      intro st st' h v hok hget
      simp only [matchByGeometry, Except.ok.injEq] at hok
      rw [← hok]
      exact hget
  | cons q rest ih =>
      intro st st' h v hok hget
      obtain ⟨fn, fh⟩ := q
      simp only [matchByGeometry] at hok
      cases hs : matchComponentGeo env c fn fh st with
      | error e => rw [hs] at hok; simp at hok
      | ok st1 =>
          rw [hs] at hok
          obtain ⟨hfresh, n, lh, s, hpop, hpool, hmatched⟩ := matchComponentGeo_ok hs
          have hne : h ≠ fh := by
            intro he
            rw [he, hfresh] at hget
            simp at hget
          have hkeep : dictGet st1.matched h = some v := by
            rw [hmatched, dictGet_insert_ne _ _ _ _ hne]
            exact hget
          exact ih hok hkeep

lemma matchByGeometry_mem_key {μ : Type} {env : Env μ} {c : Config} :
    ∀ {comps : List (String × String)} {st st' : MatchState} {fn fh : String},
      matchByGeometry env c comps st = .ok st' → (fn, fh) ∈ comps →
      (dictGet st'.matched fh).isSome := by
  intro comps
  induction comps with
  | nil =>
      intro st st' fn fh hok hmem
      simp at hmem
  | cons q rest ih =>
      intro st st' fn fh hok hmem
      obtain ⟨qn, qh⟩ := q
      simp only [matchByGeometry] at hok
      cases hs : matchComponentGeo env c qn qh st with
      | error e => rw [hs] at hok; simp at hok
      | ok st1 =>
          rw [hs] at hok
          rcases List.mem_cons.mp hmem with he | hmem'
          · rcases Prod.mk.inj he with ⟨rfl, rfl⟩
            obtain ⟨hfresh, n, lh, s, hpop, hpool, hmatched⟩ := matchComponentGeo_ok hs
            have h1 : dictGet st1.matched fh = some (.geoRec n lh s) := by
              rw [hmatched]
              exact dictGet_insert_self _ _ _
            rw [matchByGeometry_preserves_entry hok h1]
            rfl
          · exact ih hok hmem'


/-! The in-pass hash shortcut (lines 159-178) fully determined: when the full
hash is unclaimed and still in the pool and the candidate mesh is loaded, the
step claims it directly. Shared by the hash-priority and run-orchestration
theorems below. -/

lemma step_hash_shortcut {μ : Type} {env : Env μ} {c : Config}
    {fullName fullHash lodName : String} {pool' : List (String × String)} {lm : μ}
    {st : MatchState}
    (hdup : dictGet st.matched fullHash = none)
    (hpop : dictPop st.lodHashToName fullHash = (some lodName, pool'))
    (hmesh : env.lodMeshes lodName = some lm) :
    matchComponentGeo env c fullName fullHash st =
      .ok ⟨pool', st.cfg,
        dictInsert st.matched fullHash
          (.geoRec lodName fullHash (env.score st.cfg (env.fullMeshes fullName) lm)),
        if 0 < (env.vgSolver (env.fullMeshes fullName) lm).countP (fun p => p.1 != p.2)
        then dictInsert st.vgMaps fullHash (fullHash, env.vgSolver (env.fullMeshes fullName) lm)
        else st.vgMaps⟩ := by
  have hg : ¬((dictGet st.matched fullHash).isSome = true) := by simp [hdup]
  simp only [matchComponentGeo, if_neg hg, hpop, callScorer, hmesh, recordMatch, callSolver]


/-! Claim theorems. -/

/-- Claim C1 (code bug): the spec says a full component facing an empty
candidate pool is silently skipped with no record; the code instead reaches
`next(iter(similarities.items()))` on an empty similarity table and raises
`StopIteration`, aborting the run. Evaluated here at the failing input:
one full component, empty LOD table. -/
theorem c1_empty_pool_raises :
    run envW cW [("Component 0", "h1")] [] = .error .stopIteration := rfl

/-- Claim C2 (code bug): the spec says a LOD component whose mesh failed to
load is excluded from candidacy and every later scoring attempt against it is
skipped; in the code the skip in `calculate_similarities` is commented out
(lines 137-138), so the `None` sentinel stays in candidacy and is handed to
the external scorer, crashing the run. Evaluated at the failing input: LOD
component `B` has the sentinel mesh and is the only candidate. -/
theorem c2_none_mesh_not_skipped :
    run envB cW [("A", "h1")] [("B", "h2")] = .error (.attributeError "B") := rfl

/-- Claim C3, counterexample: `run()` does not execute the hash-based pass —
the `match_by_hash()` call (line 247) is commented out. Running the source's
hash pass before the geometric pass (`specOrderedRun`, the spec's §4.4 order)
gives a different result on the same input than the source's `run`: the
geometric pass raises the duplicate-hash guard on the already-claimed hash,
while the actual run completes. -/
theorem c3_counterexample :
    run envW cW [("A", "h1")] [("B", "h1")] ≠
      specOrderedRun envW cW [("A", "h1")] [("B", "h1")] := by
  decide

/-- Claim C3, amended: `run()` executes only the geometric pass; a full
component whose hash is present in the LOD hash index is instead claimed by
the hash shortcut at the start of its own geometric-pass iteration — here the
first component, matched with the scorer still at its initial (never
geometric) configuration. -/
theorem c3_amended {μ : Type} {env : Env μ} {c : Config} {n h lodName : String}
    {rest lodComponents : List (String × String)} {lm : μ} {st : MatchState}
    (hpool : dictGet (buildHashToName lodComponents) h = some lodName)
    (hmesh : env.lodMeshes lodName = some lm)
    (hok : run env c ((n, h) :: rest) lodComponents = .ok st) :
    dictGet st.matched h =
      some (.geoRec lodName h (env.score GeoCfg.initial (env.fullMeshes n) lm)) := by
  have hpop : dictPop (buildHashToName lodComponents) h =
      (some lodName, (dictPop (buildHashToName lodComponents) h).2) := by
    have h1 := dictPop_fst (buildHashToName lodComponents) h
    rw [hpool] at h1
    exact Prod.ext h1 rfl
  have hstep := @step_hash_shortcut μ env c n h lodName
    ((dictPop (buildHashToName lodComponents) h).2) lm (initState lodComponents) rfl hpop hmesh
  simp only [run, matchByGeometry] at hok
  rw [hstep] at hok
  dsimp only at hok
  have hget1 := dictGet_insert_self (initState lodComponents).matched h
    (MatchVal.geoRec lodName h (env.score GeoCfg.initial (env.fullMeshes n) lm))
  exact matchByGeometry_preserves_entry hok hget1

/-- Claim C3, witness for the amended theorem: a one-component run whose hash
is in the LOD index is claimed via the in-pass shortcut at the initial
configuration. -/
theorem c3_witness :
    dictGet (buildHashToName [("B", "h1")]) "h1" = some "B" ∧
    dictGet (MatchState.matched ⟨[], GeoCfg.initial,
        [("h1", MatchVal.geoRec "B" "h1" 0)], []⟩) "h1" =
      some (.geoRec "B" "h1" 0) := by
  refine ⟨rfl, ?_⟩
  exact @c3_amended Nat envW cW "A" "h1" "B" [] [("B", "h1")] 0
    ⟨[], GeoCfg.initial, [("h1", MatchVal.geoRec "B" "h1" 0)], []⟩ rfl rfl rfl

/-- Claim C4 (confirmed): after any completed run, no two `matched` records
under distinct full hashes reference the same LOD content hash — each claim
pops the claimed hash from the candidate pool, and every claim comes from the
pool. -/
theorem c4_uniqueness {μ : Type} {env : Env μ} {c : Config}
    {fullComponents lodComponents : List (String × String)} {st : MatchState}
    {h₁ n₁ lh₁ h₂ n₂ lh₂ : String} {s₁ s₂ : Int}
    (hok : run env c fullComponents lodComponents = .ok st)
    (hm₁ : (h₁, MatchVal.geoRec n₁ lh₁ s₁) ∈ st.matched)
    (hm₂ : (h₂, MatchVal.geoRec n₂ lh₂ s₂) ∈ st.matched)
    (hne : h₁ ≠ h₂) : lh₁ ≠ lh₂ := by
  have hinv : StInv st :=
    matchByGeometry_preserves_inv
      (show matchByGeometry env c fullComponents (initState lodComponents) = .ok st from hok)
      (initState_inv lodComponents)
  exact hinv.2.2 h₁ _ h₂ _ hm₁ hm₂ hne

/-- Claim C4, witness: a completed two-component run; its two records
reference distinct LOD hashes. -/
theorem c4_witness :
    run envW cW [("A", "h1"), ("D", "h4")] [("B", "h1"), ("C", "h4")] =
      .ok ⟨[], GeoCfg.initial,
        [("h1", MatchVal.geoRec "B" "h1" 0), ("h4", MatchVal.geoRec "C" "h4" 0)], []⟩ ∧
    ("h1" : String) ≠ "h4" := by
  refine ⟨rfl, ?_⟩
  exact @c4_uniqueness Nat envW cW [("A", "h1"), ("D", "h4")] [("B", "h1"), ("C", "h4")]
    ⟨[], GeoCfg.initial,
      [("h1", MatchVal.geoRec "B" "h1" 0), ("h4", MatchVal.geoRec "C" "h4" 0)], []⟩
    "h1" "B" "h1" "h4" "C" "h4" 0 0 rfl (by decide) (by decide) (by decide)

/-- Claim C5 (confirmed): a full component whose hash is still in the
candidate pool claims that LOD component directly via the hash shortcut —
the record references it by construction, and the scorer configuration is
left untouched (the geometric stages, which would set it, never run). -/
theorem c5_hash_priority {μ : Type} {env : Env μ} {c : Config}
    {fullName fullHash lodName : String} {pool' : List (String × String)} {lm : μ}
    {st : MatchState}
    (hdup : dictGet st.matched fullHash = none)
    (hpop : dictPop st.lodHashToName fullHash = (some lodName, pool'))
    (hmesh : env.lodMeshes lodName = some lm) :
    ∃ st', matchComponentGeo env c fullName fullHash st = .ok st' ∧
      st'.cfg = st.cfg ∧
      dictGet st'.matched fullHash =
        some (.geoRec lodName fullHash (env.score st.cfg (env.fullMeshes fullName) lm)) := by
  refine ⟨_, step_hash_shortcut hdup hpop hmesh, rfl, ?_⟩
  exact dictGet_insert_self _ _ _

/-- Claim C5, witness: concrete hash-shortcut claim. -/
theorem c5_witness :
    dictPop [("h1", "B")] "h1" = (some "B", ([] : List (String × String))) ∧
    (∃ st', matchComponentGeo envW cW "A" "h1" ⟨[("h1", "B")], GeoCfg.initial, [], []⟩ =
        .ok st' ∧
      st'.cfg = GeoCfg.initial ∧
      dictGet st'.matched "h1" = some (.geoRec "B" "h1" 0)) := by
  refine ⟨rfl, ?_⟩
  exact @c5_hash_priority Nat envW cW "A" "h1" "B" [] 0
    ⟨[("h1", "B")], GeoCfg.initial, [], []⟩ rfl rfl rfl

/-- Claim C6, counterexample: with two full components sharing hash `h1` and a
candidate pool containing a sentinel (failed-load) mesh, the run aborts with
the sentinel-crash error from the first component's geometric scoring, not
with the data-integrity error — geometric work is not preceded by the
duplicate-hash abort. -/
theorem c6_counterexample :
    run envB cW [("A", "h1"), ("D", "h1")] [("B", "h2")] =
      .error (.attributeError "B") := rfl

/-- Claim C6, amended: the duplicate-hash guard fires at the start of the
duplicate component's own iteration — for every environment, so before any
geometric work for that component — but geometric work for earlier full
components happens first and its own failure can preempt the integrity
error. -/
theorem c6_amended {μ : Type} (env : Env μ) (c : Config) (fullName fullHash : String)
    (st : MatchState) (v : MatchVal) (hdup : dictGet st.matched fullHash = some v) :
    matchComponentGeo env c fullName fullHash st = .error (.duplicateHash fullHash) := by
  have hg : (dictGet st.matched fullHash).isSome = true := by simp [hdup]
  simp only [matchComponentGeo, if_pos hg]

/-- Claim C6, witness: a component whose hash is already claimed raises the
integrity error naming that hash. -/
theorem c6_witness :
    dictGet (MatchState.matched ⟨[], GeoCfg.initial,
        [("h1", MatchVal.geoRec "B" "h2" 0)], []⟩) "h1" =
      some (MatchVal.geoRec "B" "h2" 0) ∧
    matchComponentGeo envW cW "D" "h1"
        ⟨[], GeoCfg.initial, [("h1", MatchVal.geoRec "B" "h2" 0)], []⟩ =
      .error (.duplicateHash "h1") := by
  refine ⟨rfl, ?_⟩
  exact c6_amended envW cW "D" "h1"
    ⟨[], GeoCfg.initial, [("h1", MatchVal.geoRec "B" "h2" 0)], []⟩
    (MatchVal.geoRec "B" "h2" 0) rfl

/-- Claim C7 (confirmed): when a full component is resolved geometrically
(hash unclaimed, not in the pool), the recorded winner is one of the
prefiltered coarse-stage hashes, and that prefiltered set has at most
`prefilter_candidates_count` elements. -/
theorem c7_prefilter_soundness {μ : Type} {env : Env μ} {c : Config}
    {fullName fullHash : String} {st st' : MatchState} {coarseSims : List (String × Int)}
    (hdup : dictGet st.matched fullHash = none)
    (hnohash : dictGet st.lodHashToName fullHash = none)
    (hcoarse : calculateSimilarities env.score
        (GeoCfg.params c.geoMatcherPrefilterSampleSize c.geoMatcherPrefilterVoxelSize)
        (env.fullMeshes fullName) env.lodMeshes st.lodHashToName = .ok coarseSims)
    (hok : matchComponentGeo env c fullName fullHash st = .ok st') :
    (prefilteredHashes coarseSims c.geoMatcherPrefilterCandidatesCount).length ≤
        c.geoMatcherPrefilterCandidatesCount ∧
    ∃ n lh s, dictGet st'.matched fullHash = some (.geoRec n lh s) ∧
      lh ∈ prefilteredHashes coarseSims c.geoMatcherPrefilterCandidatesCount := by
  have hlen : (prefilteredHashes coarseSims c.geoMatcherPrefilterCandidatesCount).length ≤
      c.geoMatcherPrefilterCandidatesCount := by
    simp only [prefilteredHashes, List.length_take, List.length_map]
    exact le_trans (Nat.min_le_left _ _) (Nat.min_le_left _ _)
  have hg : ¬((dictGet st.matched fullHash).isSome = true) := by simp [hdup]
  simp only [matchComponentGeo, if_neg hg] at hok
  rw [dictPop_none _ _ hnohash] at hok
  dsimp only at hok
  rw [hcoarse] at hok
  dsimp only at hok
  cases hsel : selectCandidates st.lodHashToName
      (prefilteredHashes coarseSims c.geoMatcherPrefilterCandidatesCount) with
  | error e => rw [hsel] at hok; simp at hok
  | ok cands =>
      rw [hsel] at hok
      dsimp only at hok
      cases hfs : calculateSimilarities env.score
          (GeoCfg.params c.geoMatcherSampleSize c.geoMatcherVoxelSize)
          (env.fullMeshes fullName) env.lodMeshes cands with
      | error e => rw [hfs] at hok; simp at hok
      | ok sims =>
          rw [hfs] at hok
          dsimp only at hok
          cases sims with
          | nil => simp at hok
          | cons hd tl =>
              obtain ⟨bestLodHash, bestSim⟩ := hd
              dsimp only at hok
              cases hp2 : dictPop st.lodHashToName bestLodHash with
              | mk o2 pool3 =>
                  rw [hp2] at hok
                  cases o2 with
                  | none => dsimp only at hok; simp at hok
                  | some bestLodName =>
                      dsimp only at hok
                      obtain ⟨lm, hlm, hst⟩ := recordMatch_ok hok
                      refine ⟨hlen, bestLodName, bestLodHash, bestSim, ?_, ?_⟩
                      · rw [hst]
                        exact dictGet_insert_self _ _ _
                      · have hmem : (bestLodHash, bestSim) ∈ (bestLodHash, bestSim) :: tl :=
                          List.mem_cons_self _ _
                        have h1 : bestLodHash ∈ cands.map Prod.fst :=
                          calculateSimilarities_key_mem hfs hmem
                        rw [selectCandidates_keys hsel] at h1
                        exact h1

/-- Claim C7, witness: a concrete geometric resolution whose winner is the
single prefiltered hash. -/
theorem c7_witness :
    dictGet [("h2", "B")] "h1" = (none : Option String) ∧
    (prefilteredHashes [("h2", (0 : Int))] 5).length ≤ 5 ∧
    (∃ n lh s,
      dictGet (MatchState.matched ⟨[], GeoCfg.params 20 10,
          [("h1", MatchVal.geoRec "B" "h2" 0)], []⟩) "h1" =
        some (.geoRec n lh s) ∧
      lh ∈ prefilteredHashes [("h2", (0 : Int))] 5) := by
  refine ⟨rfl, ?_⟩
  exact @c7_prefilter_soundness Nat envW cW "A" "h1"
    ⟨[("h2", "B")], GeoCfg.initial, [], []⟩
    ⟨[], GeoCfg.params 20 10, [("h1", MatchVal.geoRec "B" "h2" 0)], []⟩
    [("h2", 0)] rfl rfl rfl rfl

/-- Claim C8 (confirmed): for a step that records a match, a `vg_maps` entry
is stored for the full hash iff the solver's mapping contains at least one
pair whose output index differs from its input index. -/
theorem c8_remap_minimality {μ : Type} {env : Env μ} {c : Config}
    {fullName fullHash : String} {st st' : MatchState}
    (hfresh : dictGet st.vgMaps fullHash = none)
    (hok : matchComponentGeo env c fullName fullHash st = .ok st') :
    ∃ n lh s lm, dictGet st'.matched fullHash = some (.geoRec n lh s) ∧
      env.lodMeshes n = some lm ∧
      ((dictGet st'.vgMaps fullHash).isSome ↔
        ∃ p ∈ env.vgSolver (env.fullMeshes fullName) lm, p.1 ≠ p.2) := by
  obtain ⟨hget0, n, lh, s, lm, pool', cfg', hpop, hlm, hst⟩ := matchComponentGeo_ok_strong hok
  refine ⟨n, lh, s, lm, ?_, hlm, ?_⟩
  · rw [hst]
    exact dictGet_insert_self _ _ _
  · rw [hst]
    dsimp only
    by_cases hc : 0 < (env.vgSolver (env.fullMeshes fullName) lm).countP (fun p => p.1 != p.2)
    · rw [if_pos hc, dictGet_insert_self]
      simp only [Option.isSome_some, true_iff]
      rw [List.countP_pos_iff] at hc
      obtain ⟨p, hp, hb⟩ := hc
      exact ⟨p, hp, by simpa [bne_iff_ne] using hb⟩
    · rw [if_neg hc]
      simp only [hfresh, Option.isSome_none, Bool.false_eq_true, false_iff]
      intro hex
      apply hc
      rw [List.countP_pos_iff]
      obtain ⟨p, hp, hne⟩ := hex
      exact ⟨p, hp, by simpa [bne_iff_ne] using hne⟩

/-- Claim C8, witness: identity solver output stores no remap entry. -/
theorem c8_witness :
    dictGet ([] : List (String × String × List (Int × Int))) "h1" = none ∧
    (∃ n lh s lm,
      dictGet (MatchState.matched ⟨[], GeoCfg.params 20 10,
          [("h1", MatchVal.geoRec "B" "h2" 0)], []⟩) "h1" =
        some (.geoRec n lh s) ∧
      envW.lodMeshes n = some lm ∧
      ((dictGet (MatchState.vgMaps ⟨[], GeoCfg.params 20 10,
          [("h1", MatchVal.geoRec "B" "h2" 0)], []⟩) "h1").isSome ↔
        ∃ p ∈ envW.vgSolver (envW.fullMeshes "A") lm, p.1 ≠ p.2)) := by
  refine ⟨rfl, ?_⟩
  exact @c8_remap_minimality Nat envW cW "A" "h1"
    ⟨[("h2", "B")], GeoCfg.initial, [], []⟩
    ⟨[], GeoCfg.params 20 10, [("h1", MatchVal.geoRec "B" "h2" 0)], []⟩ rfl rfl

/-- Claim C9 (confirmed): the run is a pure function of the declared inputs —
the external scorer and solver, the configuration, and the two metadata
tables in order — so identical inputs give identical `matched` and `vg_maps`
tables, keys, values and order included. The source's only other effects
(`time.time()` and `print`) do not feed back into the result. -/
theorem c9_determinism {μ : Type} (e₁ e₂ : Env μ) (c₁ c₂ : Config)
    (f₁ f₂ l₁ l₂ : List (String × String))
    (he : e₁ = e₂) (hc : c₁ = c₂) (hf : f₁ = f₂) (hl : l₁ = l₂) :
    run e₁ c₁ f₁ l₁ = run e₂ c₂ f₂ l₂ := by
  subst he
  subst hc
  subst hf
  subst hl
  rfl

/-- Claim C9, witness: two identical concrete runs coincide. -/
theorem c9_witness :
    run envW cW [("A", "h1")] [("B", "h1")] = run envW cW [("A", "h1")] [("B", "h1")] :=
  c9_determinism envW envW cW cW [("A", "h1")] [("A", "h1")] [("B", "h1")] [("B", "h1")]
    rfl rfl rfl rfl

/-- Claim C10 (confirmed): if `run()` returns normally, the returned table has
an entry for every full component's hash — each geometric-pass iteration
either records a match for its component or aborts the run. -/
theorem c10_all_components_matched {μ : Type} {env : Env μ} {c : Config}
    {fullComponents lodComponents : List (String × String)} {st : MatchState}
    {fn fh : String}
    (hok : run env c fullComponents lodComponents = .ok st)
    (hmem : (fn, fh) ∈ fullComponents) : (dictGet st.matched fh).isSome := by
  exact matchByGeometry_mem_key
    (show matchByGeometry env c fullComponents (initState lodComponents) = .ok st from hok) hmem

/-- Claim C10, witness: a completed one-component run has a record for that
component's hash. -/
theorem c10_witness :
    run envW cW [("A", "h1")] [("B", "h2")] =
      .ok ⟨[], GeoCfg.params 20 10, [("h1", MatchVal.geoRec "B" "h2" 0)], []⟩ ∧
    (dictGet (MatchState.matched ⟨[], GeoCfg.params 20 10,
        [("h1", MatchVal.geoRec "B" "h2" 0)], []⟩) "h1").isSome = true := by
  refine ⟨rfl, ?_⟩
  exact @c10_all_components_matched Nat envW cW [("A", "h1")] [("B", "h2")]
    ⟨[], GeoCfg.params 20 10, [("h1", MatchVal.geoRec "B" "h2" 0)], []⟩ "A" "h1"
    rfl (by decide)

end LODMatcher
